import Mathlib

/-!
Verification of the WinDBG compatibility layer (`scripts/windbg.py`):
a shallow embedding of the step-until-call tracer (`tc` / `pc`), the
module-load watchpoint (`sxe` / `BreakOnLoadSharedLibrary`), and the
register dump/assignment command (`r`), with theorems checking the
specification's claims against the embedded code.
-/

deriving instance DecidableEq for Except

namespace Windbg

/-- Python `str.endswith(pat)`: the characters of `pat` are a suffix of the
string (empty `pat` always matches), computed by comparing the trailing
segment of matching length. -/
def pyEndsWith (s pat : String) : Bool :=
  s.data.drop (s.data.length - pat.data.length) == pat.data

/-! ## Step-until-call tracer (`WindbgTcCommand.do_invoke`, `WindbgPcCommand.do_invoke`)

The debuggee and its instruction classifier are abstracted as functions:
`stepInto`/`stepOver` map the current pc to the pc after one `stepi`/`nexti`
(`none` models the step, or the subsequent read of `current_arch.pc` /
`gef_current_instruction`, raising because the debuggee terminated mid-step);
`isCall` is `current_arch.is_call` of the instruction at an address. -/

structure Machine where
  stepInto : Nat → Option Nat
  stepOver : Nat → Option Nat
  isCall : Nat → Bool

/-- The observable state the tracer touches: the debuggee's pc, the
`context.enable` gef setting (the verbose-feedback suppression toggle),
and a count of single steps executed so far (instrumentation). -/
structure St where
  pc : Nat
  contextEnabled : Bool
  steps : Nat
deriving DecidableEq

/-- Result of one `do_invoke` of `tc`/`pc`:
`notRunning` — the `only_if_gdb_running` guard aborted before the body ran;
`raised` — an exception escaped the loop (state at that moment);
`finished` — normal return after `set_gef_setting("context.enable", True)`. -/
inductive Outcome where
  | notRunning (s : St)
  | raised (s : St)
  | finished (s : St)
deriving DecidableEq

/-- The `while cnt:` loop body of `WindbgTcCommand.do_invoke` (lines 61-67)
and `WindbgPcCommand.do_invoke` (lines 81-87): decrement `cnt`, disable
`context.enable`, execute one step, then break if the instruction now at
pc is a call.  An error of the step propagates (there is no handler). -/
def tcLoop (step : Nat → Option Nat) (isCall : Nat → Bool) : Nat → St → Except St St
  | 0, s => .ok s
  | n + 1, s =>
    match step s.pc with
    | none => .error { s with contextEnabled := false }
    | some p2 =>
      if isCall p2 then .ok { pc := p2, contextEnabled := false, steps := s.steps + 1 }
      else tcLoop step isCall n { pc := p2, contextEnabled := false, steps := s.steps + 1 }

/-- Shared body of `tc`/`pc` `do_invoke`: the `only_if_gdb_running` guard
(from gef: aborts before the body when no debuggee is live), the default
count `0xffffffffffffffff` when no argument was given, the loop, and the
final `set_gef_setting("context.enable", True)` on normal exit. -/
def trace_invoke (step : Nat → Option Nat) (isCall : Nat → Bool)
    (running : Bool) (cntArg : Option Nat) (s : St) : Outcome :=
  if running = false then .notRunning s
  else
    match tcLoop step isCall (cntArg.getD 0xffffffffffffffff) s with
    | .error s1 => .raised s1
    | .ok s1 => .finished { s1 with contextEnabled := true }

/-- `WindbgTcCommand.do_invoke` (steps with `stepi`). -/
def tc_do_invoke (m : Machine) : Bool → Option Nat → St → Outcome :=
  trace_invoke m.stepInto m.isCall

/-- `WindbgPcCommand.do_invoke` (steps with `nexti`). -/
def pc_do_invoke (m : Machine) : Bool → Option Nat → St → Outcome :=
  trace_invoke m.stepOver m.isCall

/-- A straight-line debuggee: pc advances by one abstract unit per step; the
instruction at addresses 0..4 is not a call, the instruction at address 5 is
a call.  Both step primitives coincide on straight-line code. -/
def mStraight : Machine :=
  { stepInto := fun p => some (p + 1)
    stepOver := fun p => some (p + 1)
    isCall := fun p => p == 5 }

/-- A debuggee that terminates during the very first single step. -/
def mDiesOnStep : Machine :=
  { stepInto := fun _ => none
    stepOver := fun _ => none
    isCall := fun _ => false }

/-- Initial state for the concrete traces: pc at the first instruction,
verbose feedback enabled, no steps taken yet. -/
def st0 : St := { pc := 0, contextEnabled := true, steps := 0 }

/-- A debuggee that never reaches a call instruction and never dies. -/
def mNoCall : Machine :=
  { stepInto := fun p => some (p + 1)
    stepOver := fun p => some (p + 1)
    isCall := fun _ => false }

/-! ## Module-load watchpoint (`BreakOnLoadSharedLibrary`, `WindbgSxeCommand`)

A watch entry as created by `BreakOnLoadSharedLibrary.__init__`: the module
name, the `silent`/`enabled` flags, plus a `deleted` flag recording whether
`delete()` was called on the underlying gdb breakpoint object. -/

structure LoadBp where
  module_name : String
  silent : Bool
  enabled : Bool
  deleted : Bool
deriving DecidableEq

/-- `BreakOnLoadSharedLibrary.__init__(module_name)`. -/
def BreakOnLoadSharedLibrary_init (mname : String) : LoadBp :=
  { module_name := mname, silent := true, enabled := true, deleted := false }

/-- `argv[0].split(":", 1)`: split at the first colon; `none` models the
`ValueError` of unpacking a single-element list into `action, module`. -/
def splitFirstColon : List Char → Option (List Char × List Char)
  | [] => none
  | c :: cs =>
    if c = ':' then some ([], cs)
    else (splitFirstColon cs).map (fun p => (c :: p.1, p.2))

/-- The `ud` branch of `WindbgSxeCommand.do_invoke` (lines 42-47): the first
entry of `self.breakpoints` whose `module_name` equals the request is
disabled and its gdb breakpoint deleted, but `bkps.remove(bkp)` removes it
only from the temporary filtered list `bkps`, so `self.breakpoints` keeps
the (now disabled) entry. -/
def sxe_ud : List LoadBp → String → List LoadBp
  | [], _ => []
  | b :: rest, mname =>
    if b.module_name = mname then { b with enabled := false, deleted := true } :: rest
    else b :: sxe_ud rest mname

/-- `WindbgSxeCommand.do_invoke`: returns the updated `self.breakpoints`
collection; `.error ()` models the unpacking `ValueError` when the argument
has no colon.  An unknown action, like an empty `argv`, prints usage and
leaves the collection unchanged. -/
def sxe_do_invoke (bps : List LoadBp) (argv : List String) : Except Unit (List LoadBp) :=
  match argv with
  | [] => .ok bps
  | arg :: _ =>
    match splitFirstColon arg.data with
    | none => .error ()
    | some (action, mname) =>
      if action = "ld".data then
        .ok (bps ++ [BreakOnLoadSharedLibrary_init (String.mk mname)])
      else if action = "ud".data then
        .ok (sxe_ud bps (String.mk mname))
      else .ok bps

/-- The slice of gef's `lookup_address` result that
`BreakOnLoadSharedLibrary.stop` consults: only the `value` field. -/
structure Address where
  value : Nat
deriving DecidableEq

/-- `BreakOnLoadSharedLibrary.stop` (lines 11-19).  The collaborators are
parameters: `lookup_address` maps the first-argument register's value to an
`Address` (gef keeps the raw value in `.value` even for unmapped
addresses); `read_cstring` models `read_cstring_from_memory`, with `none`
for a failing read, whose exception escapes `stop` (there is no handler). -/
def bolsl_stop (bp : LoadBp) (lookup_address : Nat → Address)
    (read_cstring : Nat → Option String) (regVal : Nat) : Except Unit Bool :=
  let addr := lookup_address regVal
  if addr.value = 0 then .ok false
  else
    match read_cstring addr.value with
    | none => .error ()
    | some path => .ok (pyEndsWith path bp.module_name)

/-! ## Register model (`WindbgRCommand`) -/

/-- Lowercase hexadecimal digit character, as produced by Python's `%x`. -/
def hexDigitChar (n : Nat) : Char :=
  if n < 10 then Char.ofNat (48 + n) else Char.ofNat (87 + n)

/-- Base-16 digits of `v`, most significant first, no leading zeros
(`['0']` for zero).  The first argument is recursion fuel; `hexChars`
supplies enough of it. -/
def hexCharsAux : Nat → Nat → List Char
  | 0, _ => []
  | fuel + 1, v =>
    if v < 16 then [hexDigitChar v]
    else hexCharsAux fuel (v / 16) ++ [hexDigitChar (v % 16)]

/-- Python `'%x' % v`. -/
def hexChars (v : Nat) : List Char := hexCharsAux (v + 1) v

/-- Python `'%016x' % v`: the hex digits left-padded with `'0'` to (at
least) width 16. -/
def fmt016x (v : Nat) : List Char :=
  List.replicate (16 - (hexChars v).length) '0' ++ hexChars v

/-- Python `str.rjust(w)`: left-pad with spaces to (at least) width `w`. -/
def rjust (s : String) (w : Nat) : String :=
  String.mk (List.replicate (w - s.length) ' ' ++ s.data)

/-- `print_reg` inside `WindbgRCommand.print_regs` (lines 184-185):
`'%s=%016x' % (reg.rjust(3), get_register('$' + reg))`.  `env` is
`get_register`, keyed by the `$`-prefixed register name. -/
def print_reg (env : String → Nat) (reg : String) : String :=
  rjust reg 3 ++ "=" ++ String.mk (fmt016x (env ("$" ++ reg)))

/-- What one entry of the inner loop prints: a `None` entry prints nothing
(the separator logic still runs for it). -/
def regEntry (env : String → Nat) : Option String → String
  | some reg => print_reg env reg
  | none => ""

/-- The inner `for ii in range(0, len(regs))` loop of `print_regs` (lines
188-194): after each entry a single space, except after the last, which
gets the newline of the bare `print()`. -/
def renderRow (env : String → Nat) : List (Option String) → String
  | [] => ""
  | [r] => regEntry env r ++ "\n"
  | r :: rest => regEntry env r ++ " " ++ renderRow env rest

/-- The `chunks(l, n)` generator (lines 180-182) for chunk size `k + 1`:
the slices `l[0:k+1], l[k+1:2*(k+1)], ...`.  The first argument is
recursion fuel; `l.length` is always enough. -/
def chunksGo (k : Nat) : Nat → List (Option String) → List (List (Option String))
  | 0, _ => []
  | _, [] => []
  | fuel + 1, a :: l => (a :: l.take k) :: chunksGo k fuel (l.drop k)

/-- `chunks(l, n)`; the `n = 0` case never yields (Python raises instead,
see `print_regs`). -/
def chunks (l : List (Option String)) (n : Nat) : List (List (Option String)) :=
  match n with
  | 0 => []
  | k + 1 => chunksGo k l.length l

/-- Concatenation of the texts printed by a sequence of print statements. -/
def concatAll : List String → String
  | [] => ""
  | a :: t => a ++ concatAll t

/-- `WindbgRCommand.print_regs(reg_list, n)` (lines 179-194) as the text it
prints; `.error ()` models the `ValueError` that `range(0, len(l), 0)`
raises when `n = 0`. -/
def print_regs (env : String → Nat) (l : List (Option String)) (n : Nat) : Except Unit String :=
  match n with
  | 0 => .error ()
  | k + 1 => .ok (concatAll ((chunksGo k l.length l).map (renderRow env)))

/-- The x86-64 register list of `print_gprs` (lines 207-214). -/
def gprs_x86_64 : List String :=
  ["rax", "rbx", "rcx", "rdx", "rsi", "rdi", "rip", "rsp", "rbp",
   "r8", "r9", "r10", "r11", "r12", "r13", "r14", "r15"]

/-- The aarch64 register list of `print_gprs` (lines 227-237). -/
def gprs_aarch64 : List String :=
  ["x0", "x1", "x2", "x3", "x4", "x5", "x6", "x7",
   "x8", "x9", "x10", "x11", "x12", "x13", "x14", "x15",
   "x16", "x17", "x18", "x19", "x20", "x21", "x22", "x23",
   "x24", "x25", "x26", "x27", "x28", "fp", "lr", "sp", "pc"]

/-- `WindbgRCommand.print_gprs` (lines 197-241): dispatch on the
architecture name; an unrecognized architecture raises. -/
def print_gprs (arch : String) (env : String → Nat) : Except Unit String :=
  if arch.startsWith "i386:x86-64" then print_regs env (gprs_x86_64.map some) 3
  else if arch.startsWith "aarch64" then print_regs env (gprs_aarch64.map some) 4
  else .error ()

/-- Python `str.split('=')`. -/
def splitEq : List Char → List (List Char)
  | [] => [[]]
  | c :: cs =>
    match splitEq cs with
    | [] => [[]]
    | h :: t => if c = '=' then [] :: h :: t else (c :: h) :: t

/-- One of Python's base-16 digits. -/
def isHexDigit (c : Char) : Bool :=
  (('0' ≤ c && c ≤ '9') || ('a' ≤ c && c ≤ 'f') || ('A' ≤ c && c ≤ 'F'))

/-- Numeric value of a base-16 digit. -/
def hexDigitVal (c : Char) : Nat :=
  if c ≤ '9' then c.toNat - 48
  else if c ≤ 'F' then c.toNat - 55
  else c.toNat - 87

/-- Digits after the first one: single underscores are allowed between
digits (Python 3 numeric-literal grouping). -/
def hexRest (acc : Nat) : List Char → Option Nat
  | [] => some acc
  | ['_'] => none
  | '_' :: c :: cs => if isHexDigit c then hexRest (16 * acc + hexDigitVal c) cs else none
  | c :: cs => if isHexDigit c then hexRest (16 * acc + hexDigitVal c) cs else none

/-- At least one digit, then `hexRest`. -/
def hexSeq : List Char → Option Nat
  | [] => none
  | c :: cs => if isHexDigit c then hexRest (hexDigitVal c) cs else none

/-- Python `int(s, 16)` after the sign: an optional `0x`/`0X` prefix (an
underscore may directly follow it), then the digits. -/
def hexBody : List Char → Option Nat
  | '0' :: x :: rest =>
    if x = 'x' ∨ x = 'X' then
      match rest with
      | '_' :: rest2 => hexSeq rest2
      | _ => hexSeq rest
    else hexSeq ('0' :: x :: rest)
  | cs => hexSeq cs

/-- Python `int(s, 16)` (line 253, `int(valstr, 16)`): optional sign, then
a base-16 body; `none` is the `ValueError`. -/
def pyIntHex : List Char → Option Int
  | '+' :: rest => (hexBody rest).map (fun n => (n : Int))
  | '-' :: rest => (hexBody rest).map (fun n => -(n : Int))
  | cs => (hexBody cs).map (fun n => (n : Int))

/-- The Python exceptions escaping `WindbgRCommand.do_invoke`. -/
inductive PyErr where
  /-- `ValueError`: unpacking `combined.split('=')` into `(regstr, valstr)`
  failed because there was more than one `=` -/
  | unpackValueError
  /-- `ValueError` raised by `int(valstr, 16)` -/
  | intValueError
  /-- `TypeError`: `self.print_regs(regs)` (line 257) omits the required
  positional argument `n` of `print_regs(self, reg_list, n)` (line 179) -/
  | typeError
deriving DecidableEq

/-- What a successful `WindbgRCommand.do_invoke` did. -/
inductive RResult where
  /-- the no-argument path called `print_gprs()` -/
  | printedGprs
  /-- `gdb.execute("set {reg} = {val}")` was issued -/
  | setReg (reg : String) (val : Int)
deriving DecidableEq

/-- `''.join(argv).replace(' ', '').replace('@', '')` (line 248): removing
every space and then every `@` is removing every character that is either. -/
def combineArgs (argv : List String) : List Char :=
  (String.join argv).data.filter (fun c => !(c == ' ') && !(c == '@'))

/-- `WindbgRCommand.do_invoke` (lines 243-259), on a running debuggee (the
`@only_if_gdb_running` guard already passed). -/
def r_do_invoke (argv : List String) : Except PyErr RResult :=
  if argv.length < 1 then
    .ok .printedGprs
  else if (combineArgs argv).contains '=' then
    match splitEq (combineArgs argv) with
    | [regstr, valstr] =>
      match pyIntHex valstr with
      | some v => .ok (.setReg ("$" ++ String.mk regstr) v)
      | none => .error .intValueError
    | _ => .error .unpackValueError
  else
    .error .typeError

/-- The row layout in the (amended) claim's words: entries joined by a
single separator. -/
def joinSep (sep : String) : List String → String
  | [] => ""
  | [a] => a
  | a :: rest => a ++ sep ++ joinSep sep rest

/-- The dump layout in the amended claim's words: the chunk rows, each the
space-joined entries terminated by a newline, concatenated. -/
def dump_spec (env : String → Nat) (l : List (Option String)) (n : Nat) : String :=
  concatAll ((chunks l n).map (fun c => joinSep " " (c.map (regEntry env)) ++ "\n"))

/-- The per-register rendering exactly as the claim words it: `NAME=0x`
followed by the 16 zero-padded digits. -/
def claimEntry (env : String → Nat) : Option String → String
  | some reg => rjust reg 3 ++ "=0x" ++ String.mk (fmt016x (env ("$" ++ reg)))
  | none => ""

/-- The dump layout exactly as the claim words it, with the `0x`. -/
def dump_claimed (env : String → Nat) (l : List (Option String)) (n : Nat) : String :=
  concatAll ((chunks l n).map (fun c => joinSep " " (c.map (claimEntry env)) ++ "\n"))

lemma pyEndsWith_iff (s pat : String) :
    pyEndsWith s pat = true ↔ pat.data <:+ s.data := by
  constructor
  · intro h
    have he : s.data.drop (s.data.length - pat.data.length) = pat.data := beq_iff_eq.mp h
    exact he ▸ List.drop_suffix _ s.data
  · rintro ⟨pre, hpre⟩
    show (s.data.drop (s.data.length - pat.data.length) == pat.data) = true
    rw [← hpre]
    have hl : (pre ++ pat.data).length - pat.data.length = pre.length := by simp
    rw [hl, List.drop_left]
    simp

lemma tcLoop_no_call (step : Nat → Option Nat) (isCall : Nat → Bool)
    (hc : ∀ p, isCall p = false) (hs : ∀ p, (step p).isSome) :
    ∀ (fuel : Nat) (s : St),
      ∃ s1, tcLoop step isCall fuel s = .ok s1 ∧ s1.steps = s.steps + fuel := by
  intro fuel
  induction fuel with
  | zero => exact fun s => ⟨s, rfl, rfl⟩
  | succ n ih =>
    intro s
    obtain ⟨p2, hp⟩ := Option.isSome_iff_exists.mp (hs s.pc)
    obtain ⟨s1, hok, hsteps⟩ := ih { pc := p2, contextEnabled := false, steps := s.steps + 1 }
    have hsteps2 : s1.steps = s.steps + 1 + n := hsteps
    refine ⟨s1, ?_, by omega⟩
    show (match step s.pc with
          | none => Except.error { s with contextEnabled := false }
          | some p2 =>
            if isCall p2 then
              Except.ok { pc := p2, contextEnabled := false, steps := s.steps + 1 }
            else tcLoop step isCall n { pc := p2, contextEnabled := false, steps := s.steps + 1 })
        = Except.ok s1
    rw [hp]
    show (if isCall p2 = true then
            Except.ok { pc := p2, contextEnabled := false, steps := s.steps + 1 }
          else tcLoop step isCall n { pc := p2, contextEnabled := false, steps := s.steps + 1 })
        = Except.ok s1
    rw [hc p2, if_neg (by decide : ¬ (false = true))]
    exact hok

lemma trace_finished_enabled (step : Nat → Option Nat) (isCall : Nat → Bool)
    (cnt : Option Nat) (s s1 : St)
    (h : trace_invoke step isCall true cnt s = .finished s1) : s1.contextEnabled = true := by
  unfold trace_invoke at h
  rw [if_neg (by decide : ¬ (true = false))] at h
  cases hX : tcLoop step isCall (cnt.getD 0xffffffffffffffff) s with
  | error s2 => rw [hX] at h; exact Outcome.noConfusion h
  | ok s2 =>
    rw [hX] at h
    have h2 : Outcome.finished { s2 with contextEnabled := true } = .finished s1 := h
    cases h2
    rfl

lemma chunksGo_join (k : Nat) :
    ∀ (fuel : Nat) (l : List (Option String)), l.length ≤ fuel →
      (chunksGo k fuel l).flatten = l := by
  intro fuel
  induction fuel with
  | zero =>
    intro l hl
    cases l with
    | nil => rfl
    | cons a t => simp at hl
  | succ n ih =>
    intro l hl
    cases l with
    | nil => rfl
    | cons a l =>
      have hd : (l.drop k).length ≤ n := by
        rw [List.length_drop]
        simp at hl
        omega
      show ((a :: l.take k) :: chunksGo k n (l.drop k)).flatten = a :: l
      rw [List.flatten_cons, ih (l.drop k) hd]
      simp [List.take_append_drop]

lemma chunksGo_ne (k : Nat) :
    ∀ (fuel : Nat) (l : List (Option String)), ∀ c ∈ chunksGo k fuel l,
      c ≠ [] ∧ c.length ≤ k + 1 := by
  intro fuel
  induction fuel with
  | zero => intro l c hc; exact absurd hc (by cases l <;> simp [chunksGo])
  | succ n ih =>
    intro l c hc
    cases l with
    | nil => exact absurd hc (by simp [chunksGo])
    | cons a l =>
      rw [show chunksGo k (n + 1) (a :: l)
            = (a :: l.take k) :: chunksGo k n (l.drop k) from rfl] at hc
      rcases List.mem_cons.mp hc with h | h
      · subst h
        refine ⟨by simp, ?_⟩
        rw [List.length_cons, List.length_take]
        omega
      · exact ih (l.drop k) c h

lemma chunksGo_length (k : Nat) :
    ∀ (fuel : Nat) (l : List (Option String)), l.length ≤ fuel →
      (chunksGo k fuel l).length = (l.length + k) / (k + 1) := by
  intro fuel
  induction fuel with
  | zero =>
    intro l hl
    cases l with
    | nil =>
      show (0 : Nat) = (0 + k) / (k + 1)
      rw [Nat.zero_add, Nat.div_eq_of_lt (by omega)]
    | cons a t => simp at hl
  | succ n ih =>
    intro l hl
    cases l with
    | nil =>
      show (0 : Nat) = (0 + k) / (k + 1)
      rw [Nat.zero_add, Nat.div_eq_of_lt (by omega)]
    | cons a l =>
      show ((a :: l.take k) :: chunksGo k n (l.drop k)).length
          = ((a :: l).length + k) / (k + 1)
      have hd : (l.drop k).length ≤ n := by
        rw [List.length_drop]
        simp at hl
        omega
      rw [List.length_cons, ih (l.drop k) hd, List.length_drop, List.length_cons]
      rcases Nat.le_total k l.length with h | h
      · rw [Nat.sub_add_cancel h,
            show l.length + 1 + k = l.length + (k + 1) by omega,
            Nat.add_div_right _ (Nat.succ_pos k)]
      · rw [show l.length - k + k = k by omega,
            Nat.div_eq_of_lt (by omega : k < k + 1),
            show l.length + 1 + k = l.length + (k + 1) by omega,
            Nat.add_div_right _ (Nat.succ_pos k),
            Nat.div_eq_of_lt (by omega : l.length < k + 1)]

lemma renderRow_eq_joinSep (env : String → Nat) :
    ∀ c : List (Option String), c ≠ [] →
      renderRow env c = joinSep " " (c.map (regEntry env)) ++ "\n" := by
  intro c
  induction c with
  | nil => intro h; exact absurd rfl h
  | cons r rest ih =>
    intro _
    cases rest with
    | nil => rfl
    | cons r2 rest2 =>
      show regEntry env r ++ " " ++ renderRow env (r2 :: rest2)
          = regEntry env r ++ " " ++ joinSep " " ((r2 :: rest2).map (regEntry env)) ++ "\n"
      rw [ih (by simp), ← String.append_assoc]

lemma hexCharsAux_length_le :
    ∀ (fuel kk v : Nat), v < 16 ^ fuel → v < 16 ^ kk → 1 ≤ kk →
      (hexCharsAux fuel v).length ≤ kk := by
  intro fuel
  induction fuel with
  | zero =>
    intro kk v hf _ _
    have : v = 0 := by simpa using hf
    subst this
    show (0 : Nat) ≤ kk
    omega
  | succ n ih =>
    intro kk v hf hk h1
    by_cases h16 : v < 16
    · show (if v < 16 then [hexDigitChar v]
            else hexCharsAux n (v / 16) ++ [hexDigitChar (v % 16)]).length ≤ kk
      rw [if_pos h16]
      simpa using h1
    · show (if v < 16 then [hexDigitChar v]
            else hexCharsAux n (v / 16) ++ [hexDigitChar (v % 16)]).length ≤ kk
      rw [if_neg h16, List.length_append]
      have hdivf : v / 16 < 16 ^ n := by
        rw [Nat.div_lt_iff_lt_mul (by norm_num : (0:Nat) < 16)]
        calc v < 16 ^ (n + 1) := hf
          _ = 16 ^ n * 16 := by rw [pow_succ]
      cases kk with
      | zero => omega
      | succ kk1 =>
        cases kk1 with
        | zero =>
          rw [pow_one] at hk
          exact absurd hk h16
        | succ kk2 =>
          have hdivk : v / 16 < 16 ^ (kk2 + 1) := by
            rw [Nat.div_lt_iff_lt_mul (by norm_num : (0:Nat) < 16)]
            calc v < 16 ^ (kk2 + 2) := hk
              _ = 16 ^ (kk2 + 1) * 16 := by rw [pow_succ]
          have := ih (kk2 + 1) (v / 16) hdivf hdivk (by omega)
          simp only [List.length_cons, List.length_nil]
          omega

lemma hexDigitChar_hex :
    ∀ n < 16, (hexDigitChar n).isDigit = true
      ∨ ('a' ≤ hexDigitChar n ∧ hexDigitChar n ≤ 'f') := by decide

lemma hexCharsAux_mem :
    ∀ (fuel v : Nat), ∀ c ∈ hexCharsAux fuel v,
      c.isDigit = true ∨ ('a' ≤ c ∧ c ≤ 'f') := by
  intro fuel
  induction fuel with
  | zero => intro v c hc; exact absurd hc (by simp [hexCharsAux])
  | succ n ih =>
    intro v c hc
    rw [show hexCharsAux (n + 1) v
          = (if v < 16 then [hexDigitChar v]
             else hexCharsAux n (v / 16) ++ [hexDigitChar (v % 16)]) from rfl] at hc
    by_cases h16 : v < 16
    · rw [if_pos h16] at hc
      simp at hc
      subst hc
      exact hexDigitChar_hex v h16
    · rw [if_neg h16] at hc
      rcases List.mem_append.mp hc with h | h
      · exact ih (v / 16) c h
      · simp at h
        subst h
        exact hexDigitChar_hex (v % 16) (Nat.mod_lt _ (by norm_num))

lemma fmt016x_length (v : Nat) (hv : v < 2 ^ 64) : (fmt016x v).length = 16 := by
  have h1 : v < 16 ^ (v + 1) :=
    lt_of_lt_of_le (Nat.lt_pow_self (by norm_num) v)
      (Nat.pow_le_pow_right (by norm_num) (by omega))
  have h2 : v < 16 ^ 16 := by
    have he : (16:Nat) ^ 16 = 2 ^ 64 := by norm_num
    omega
  have hle : (hexChars v).length ≤ 16 := hexCharsAux_length_le (v + 1) 16 v h1 h2 (by omega)
  show (List.replicate (16 - (hexChars v).length) '0' ++ hexChars v).length = 16
  rw [List.length_append, List.length_replicate]
  omega

lemma fmt016x_hexdigits (v : Nat) :
    ∀ c ∈ fmt016x v, c.isDigit = true ∨ ('a' ≤ c ∧ c ≤ 'f') := by
  intro c hc
  rcases List.mem_append.mp hc with h | h
  · rw [List.eq_of_mem_replicate h]
    left
    decide
  · exact hexCharsAux_mem (v + 1) v c h

lemma splitEq_length : ∀ cs : List Char, (splitEq cs).length = cs.count '=' + 1 := by
  intro cs
  induction cs with
  | nil => rfl
  | cons c cs ih =>
    cases hE : splitEq cs with
    | nil => rw [hE] at ih; simp at ih
    | cons h t =>
      rw [hE] at ih
      show (match splitEq cs with
            | [] => [[]]
            | h :: t => if c = '=' then [] :: h :: t else (c :: h) :: t).length
          = (c :: cs).count '=' + 1
      rw [hE]
      show (if c = '=' then [] :: h :: t else (c :: h) :: t).length
          = (c :: cs).count '=' + 1
      by_cases hc : c = '='
      · rw [if_pos hc, hc]
        simp [List.count_cons] at ih ⊢
        omega
      · rw [if_neg hc]
        simp [List.count_cons, hc] at ih ⊢
        omega

/-- C2: running `tc` with count 5 against five non-call instructions followed
by a call does NOT perform 6 single steps: the loop checks the instruction
the pc lands on and breaks before executing the call, after 5 steps. -/
theorem C2_tc_count5_not_six_steps :
    ¬ ∃ s1, tc_do_invoke mStraight true (some 5) st0 = .finished s1 ∧ s1.steps = 6 := by
  rintro ⟨s1, h, hs⟩
  have he : tc_do_invoke mStraight true (some 5) st0 = .finished ⟨5, true, 5⟩ := by decide
  rw [he] at h
  cases h
  exact absurd hs (by decide)

/-- C2 (amended): with count 5 the tracer performs exactly 5 single steps and
stops with the pc at the call instruction (the call is the next instruction,
not yet executed); with count 3 it performs exactly 3 steps, consumes the
whole budget, and stops without having reached a call. -/
theorem C2_tc_straight_line :
    tc_do_invoke mStraight true (some 5) st0 = .finished ⟨5, true, 5⟩
    ∧ mStraight.isCall 5 = true
    ∧ tc_do_invoke mStraight true (some 3) st0 = .finished ⟨3, true, 3⟩
    ∧ mStraight.isCall 3 = false := by decide

/-- C5: when the debuggee terminates mid-step inside the loop, the exception
escapes `do_invoke` with `context.enable` still `False` — the
verbose-feedback suppression is NOT restored on that exit path (there is no
try/finally around the loop). -/
theorem C5_suppression_not_restored :
    tc_do_invoke mDiesOnStep true none st0 = .raised ⟨0, false, 0⟩
    ∧ pc_do_invoke mDiesOnStep true (some 4) st0 = .raised ⟨0, false, 0⟩ := by decide

/-- C7: invoking either tracer variant while no debuggee is running aborts in
the `only_if_gdb_running` guard before the body runs, leaving the whole
state — in particular the feedback-suppression flag — unchanged. -/
theorem C7_not_running_state_unchanged :
    ∀ (m : Machine) (cnt : Option Nat) (s : St),
      tc_do_invoke m false cnt s = .notRunning s
      ∧ pc_do_invoke m false cnt s = .notRunning s :=
  fun _ _ _ => ⟨rfl, rfl⟩

/-- C7 witness: concrete non-running invocation leaves `st0` untouched. -/
theorem C7_not_running_state_unchanged_witness :
    tc_do_invoke mStraight false none st0 = .notRunning st0 :=
  (C7_not_running_state_unchanged mStraight none st0).1

/-- C8: with no explicit count the budget is the finite sentinel
`0xffffffffffffffff = 2^64 - 1`, and on a debuggee that never reaches a call
the loop terminates after exactly that many iterations. -/
theorem C8_default_budget_finite :
    ((0xffffffffffffffff : Nat) = 2 ^ 64 - 1)
    ∧ (∀ (m : Machine) (s : St),
       tc_do_invoke m true none s = tc_do_invoke m true (some 0xffffffffffffffff) s
       ∧ pc_do_invoke m true none s = pc_do_invoke m true (some 0xffffffffffffffff) s)
    ∧ (∀ (m : Machine) (s : St),
        (∀ p, m.isCall p = false) → (∀ p, (m.stepInto p).isSome) →
        ∃ s1, tc_do_invoke m true none s = .finished s1
          ∧ s1.steps = s.steps + 0xffffffffffffffff) := by
  refine ⟨by norm_num, fun m s => ⟨rfl, rfl⟩, ?_⟩
  intro m s hc hs
  obtain ⟨s1, hok, hsteps⟩ :=
    tcLoop_no_call m.stepInto m.isCall hc hs 0xffffffffffffffff s
  refine ⟨{ s1 with contextEnabled := true }, ?_, hsteps⟩
  show trace_invoke m.stepInto m.isCall true none s = _
  unfold trace_invoke
  rw [if_neg (by decide : ¬ (true = false))]
  show (match tcLoop m.stepInto m.isCall 0xffffffffffffffff s with
        | .error s2 => Outcome.raised s2
        | .ok s2 => Outcome.finished { s2 with contextEnabled := true })
      = Outcome.finished { s1 with contextEnabled := true }
  rw [hok]

/-- C8 witness: on the concrete never-calling debuggee the default-count
invocation finishes with exactly `0xffffffffffffffff` steps taken. -/
theorem C8_default_budget_finite_witness :
    ∃ s1, tc_do_invoke mNoCall true none st0 = .finished s1
      ∧ s1.steps = st0.steps + 0xffffffffffffffff :=
  C8_default_budget_finite.2.2 mNoCall st0 (fun _ => rfl) (fun _ => rfl)

/-- C10: whenever either tracer variant returns normally on a running
debuggee, `context.enable` is forced to `true` — including count 0, where no
step is performed and no suppression ever occurred, yet the flag is still
set to enabled (pc and step count unchanged). -/
theorem C10_normal_return_enables_context :
    (∀ (m : Machine) (cnt : Option Nat) (s s1 : St),
       tc_do_invoke m true cnt s = .finished s1 → s1.contextEnabled = true)
    ∧ (∀ (m : Machine) (cnt : Option Nat) (s s1 : St),
       pc_do_invoke m true cnt s = .finished s1 → s1.contextEnabled = true)
    ∧ (∀ (m : Machine) (s : St),
       tc_do_invoke m true (some 0) s = .finished { s with contextEnabled := true })
    ∧ (∀ (m : Machine) (s : St),
       pc_do_invoke m true (some 0) s = .finished { s with contextEnabled := true }) := by
  refine ⟨?_, ?_, ?_, ?_⟩
  · exact fun m cnt s s1 h => trace_finished_enabled m.stepInto m.isCall cnt s s1 h
  · exact fun m cnt s s1 h => trace_finished_enabled m.stepOver m.isCall cnt s s1 h
  · exact fun m s => rfl
  · exact fun m s => rfl

/-- C10 witness: a concrete count-0 invocation on a state with the flag
initially false still returns with the flag forced to true. -/
theorem C10_normal_return_enables_context_witness :
    (⟨0, true, 0⟩ : St).contextEnabled = true :=
  C10_normal_return_enables_context.1 mStraight (some 0) ⟨0, false, 0⟩ ⟨0, true, 0⟩ (by decide)

/-- C1: `sxe ld:mylib.so` followed by `sxe ud:mylib.so` deactivates the
entry's breakpoint (enabled becomes false and the gdb breakpoint is
deleted) but the entry is STILL in the command layer's collection —
`bkps.remove(bkp)` only shrinks the temporary filtered list, not
`self.breakpoints`. -/
theorem C1_unwatch_keeps_entry_in_collection :
    sxe_do_invoke [] ["ld:mylib.so"]
      = .ok [{ module_name := "mylib.so", silent := true, enabled := true, deleted := false }]
    ∧ sxe_do_invoke [BreakOnLoadSharedLibrary_init "mylib.so"] ["ud:mylib.so"]
      = .ok [{ module_name := "mylib.so", silent := true, enabled := false, deleted := true }] :=
  ⟨rfl, rfl⟩

/-- C6: a first-argument pointer that fails to resolve — `lookup_address`
keeps the raw nonzero value and the C-string read at it fails — does NOT
make `stop` return false: the read error propagates out of `stop`. -/
theorem C6_unresolved_pointer_not_false :
    bolsl_stop (BreakOnLoadSharedLibrary_init "mylib.so") (fun v => ⟨v⟩) (fun _ => none) 1
      = .error ()
    ∧ (Except.error () : Except Unit Bool) ≠ .ok false :=
  ⟨rfl, fun h => Except.noConfusion h⟩

/-- C6 (amended): `stop` returns true iff the looked-up address value is
nonzero and the C-string read succeeds with a string that ends with the
entry's module name (plain suffix match, exact casing); a zero address
value returns false; a nonzero address value whose read fails propagates
the error instead of returning false. -/
theorem C6_stop_characterization :
    ∀ (bp : LoadBp) (lookup : Nat → Address) (readC : Nat → Option String) (v : Nat),
      (bolsl_stop bp lookup readC v = .ok true
        ↔ (lookup v).value ≠ 0
          ∧ ∃ path, readC (lookup v).value = some path
            ∧ pyEndsWith path bp.module_name = true)
      ∧ ((lookup v).value = 0 → bolsl_stop bp lookup readC v = .ok false)
      ∧ (∀ path, readC (lookup v).value = some path → (lookup v).value ≠ 0 →
          bolsl_stop bp lookup readC v = .ok (pyEndsWith path bp.module_name))
      ∧ (readC (lookup v).value = none → (lookup v).value ≠ 0 →
          bolsl_stop bp lookup readC v = .error ())
      ∧ (∀ (s pat : String), pyEndsWith s pat = true ↔ pat.data <:+ s.data) := by
  intro bp lookup readC v
  by_cases h0 : (lookup v).value = 0
  · refine ⟨?_, ?_, ?_, ?_, pyEndsWith_iff⟩ <;> simp [bolsl_stop, h0]
  · cases hr : readC (lookup v).value with
    | none => refine ⟨?_, ?_, ?_, ?_, pyEndsWith_iff⟩ <;> simp [bolsl_stop, h0, hr]
    | some path => refine ⟨?_, ?_, ?_, ?_, pyEndsWith_iff⟩ <;> simp [bolsl_stop, h0, hr]

/-- C6 witness: the spec's own example — a watch entry for `libfoo.so` and a
loader argument string `/usr/lib/libfoo.so` — evaluated through the
characterization. -/
theorem C6_stop_characterization_witness :
    bolsl_stop (BreakOnLoadSharedLibrary_init "libfoo.so") (fun v => ⟨v⟩)
      (fun _ => some "/usr/lib/libfoo.so") 7
      = .ok (pyEndsWith "/usr/lib/libfoo.so" "libfoo.so") :=
  (C6_stop_characterization (BreakOnLoadSharedLibrary_init "libfoo.so") (fun v => ⟨v⟩)
    (fun _ => some "/usr/lib/libfoo.so") 7).2.2.1 "/usr/lib/libfoo.so" rfl (by decide)

/-- C3: the explicit register-read path always fails: `self.print_regs(regs)`
omits the required positional argument `n` of `print_regs(self, reg_list, n)`,
so even a valid register-name list raises `TypeError` before anything is
rendered. -/
theorem C3_read_path_type_error :
    r_do_invoke ["rax"] = .error .typeError
    ∧ r_do_invoke ["rax,rbx,rax"] = .error .typeError :=
  ⟨by decide, by decide⟩

/-- C4: the claim's `NAME=0x…` rendering does not match the code:
`print_regs` prints `NAME=` directly followed by the 16 digits
(`'%s=%016x'`), differing from the claimed rendering already on a
one-register dump; moreover `perLine = 0` raises instead of rendering. -/
theorem C4_rendering_has_no_0x :
    print_regs (fun _ => 0) [some "rax"] 1 = .ok "rax=0000000000000000\n"
    ∧ dump_claimed (fun _ => 0) [some "rax"] 1 = "rax=0x0000000000000000\n"
    ∧ ("rax=0000000000000000\n" : String) ≠ "rax=0x0000000000000000\n"
    ∧ print_regs (fun _ => 0) [some "rax"] 0 = .error () :=
  ⟨by decide, by decide, by decide, rfl⟩

/-- C4 (amended): for every name list and chunk size `perLine ≥ 1` the dump
partitions the names into consecutive chunks of size `perLine` (nonempty,
at most `perLine` long, rejoining to the original list, making
`ceil(len/perLine)` rows), and renders each register as `NAME=` followed
directly by exactly 16 zero-padded lowercase hex digits (values below
`2^64`), names right-justified to width 3, entries separated by a single
space, every row terminated by a newline. -/
theorem C4_dump_layout :
    ∀ (env : String → Nat) (l : List (Option String)) (n : Nat), 1 ≤ n →
      print_regs env l n = .ok (dump_spec env l n)
      ∧ (chunks l n).flatten = l
      ∧ (∀ c ∈ chunks l n, c ≠ [] ∧ c.length ≤ n)
      ∧ (chunks l n).length = (l.length + (n - 1)) / n
      ∧ (∀ reg, env ("$" ++ reg) < 2 ^ 64 →
          (fmt016x (env ("$" ++ reg))).length = 16
          ∧ print_reg env reg = rjust reg 3 ++ "=" ++ String.mk (fmt016x (env ("$" ++ reg)))
          ∧ ∀ c ∈ fmt016x (env ("$" ++ reg)),
              c.isDigit = true ∨ ('a' ≤ c ∧ c ≤ 'f')) := by
  intro env l n hn
  obtain ⟨k, rfl⟩ : ∃ k, n = k + 1 := ⟨n - 1, by omega⟩
  refine ⟨?_, ?_, ?_, ?_, ?_⟩
  · show Except.ok (concatAll ((chunksGo k l.length l).map (renderRow env))) = _
    have hmap : (chunksGo k l.length l).map (renderRow env)
        = (chunksGo k l.length l).map (fun c => joinSep " " (c.map (regEntry env)) ++ "\n") := by
      apply List.map_congr_left
      intro c hc
      exact renderRow_eq_joinSep env c (chunksGo_ne k l.length l c hc).1
    rw [hmap]
    rfl
  · exact chunksGo_join k l.length l le_rfl
  · exact fun c hc => chunksGo_ne k l.length l c hc
  · show (chunksGo k l.length l).length = (l.length + (k + 1 - 1)) / (k + 1)
    rw [chunksGo_length k l.length l le_rfl]
    norm_num
  · intro reg hv
    exact ⟨fmt016x_length _ hv, rfl, fmt016x_hexdigits _⟩

/-- C4 witness: the layout theorem instantiated on the x86-64 register list
with 3 registers per line — its 17 registers make ceil(17/3) = 6 rows. -/
theorem C4_dump_layout_witness :
    (chunks (gprs_x86_64.map some) 3).length
      = ((gprs_x86_64.map some).length + (3 - 1)) / 3 :=
  (C4_dump_layout (fun _ => 0) (gprs_x86_64.map some) 3 (by omega)).2.2.2.1

/-- C9: `rax=1f` assigns 0x1f to `$rax`; `rax==1` fails with the unpacking
`ValueError` (the spec's `MalformedAssignment`); `rax=zz` fails inside
`int(..., 16)` (the spec's `InvalidHexValue`); a successful assignment
requires exactly one `=` in the joined, space- and `@`-stripped input; and
the right-hand side is parsed base-16 with no `0x` prefix required. -/
theorem C9_assignment_parsing :
    r_do_invoke ["rax=1f"] = .ok (.setReg "$rax" 31)
    ∧ r_do_invoke ["rax==1"] = .error .unpackValueError
    ∧ r_do_invoke ["rax=zz"] = .error .intValueError
    ∧ (∀ (argv : List String) (reg : String) (v : Int),
        r_do_invoke argv = .ok (.setReg reg v) → (combineArgs argv).count '=' = 1)
    ∧ pyIntHex "1f".data = some 31 := by
  refine ⟨by decide, by decide, by decide, ?_, by decide⟩
  intro argv reg v h
  unfold r_do_invoke at h
  by_cases hlen : argv.length < 1
  · rw [if_pos hlen] at h
    exact absurd h (by simp)
  · rw [if_neg hlen] at h
    by_cases hin : (combineArgs argv).contains '='
    · rw [if_pos hin] at h
      have hl := splitEq_length (combineArgs argv)
      rcases hsp : splitEq (combineArgs argv) with _ | ⟨a, _ | ⟨b, _ | ⟨c, t⟩⟩⟩
      · rw [hsp] at h; simp at h
      · rw [hsp] at h; simp at h
      · rw [hsp] at hl
        simp at hl
        omega
      · rw [hsp] at h; simp at h
    · rw [if_neg hin] at h
      exact absurd h (by simp)

/-- C9 witness: the accepted assignment `rax=1f` indeed has exactly one `=`
in its stripped input. -/
theorem C9_assignment_parsing_witness :
    (combineArgs ["rax=1f"]).count '=' = 1 :=
  C9_assignment_parsing.2.2.2.1 ["rax=1f"] "$rax" 31 (by decide)

end Windbg
